import Mathlib

/-!
# Verification of the HYAB data-cleaner analytics core

Shallow embedding of `hyab_data_cleaner_v6.2.py` (amount parser, period key
resolver, master parser, cohort classifier, decomposition engine, trajectory
analyzer, commentary wrapper) and proofs of the specification claims.

Modelling conventions:
* Python `int`/`float` cell and series values are modelled as `ℚ`.
* Python dicts keyed by period labels are modelled as association lists
  `List (String × ℚ)`; `dict.get(k, 0)` is `lookup0`.
* Python's stable `sorted` is modelled by a stable insertion sort `pySorted`.
* String-level helpers (`str.strip`, `str.replace`, `str.split`, `int()`,
  `float()`, the two regular expressions of `clean_amount`) are modelled by
  executable functions on `List Char` spelled out below, so that every
  definition evaluates inside the kernel.
-/

set_option allowUnsafeReducibility true
attribute [local semireducible] Rat.add Rat.mul Rat.sub Rat.inv Rat.ofScientific

namespace HYAB

/-- Whitespace set used by `str.strip`, `int()` and `float()` (ASCII
whitespace plus the no-break space, the characters relevant to this data). -/
def pyWs (c : Char) : Bool :=
  c = ' ' ∨ c = '\t' ∨ c = '\n' ∨ c = '\r' ∨ c = '\x0b' ∨ c = '\x0c' ∨ c = '\xa0'

/-- `str.strip()`: drop leading and trailing whitespace. -/
def pyStripL (s : List Char) : List Char :=
  ((s.dropWhile pyWs).reverse.dropWhile pyWs).reverse

/-- Lexicographic comparison of character lists by code point (Python's
string ordering). -/
def listCharLe : List Char → List Char → Bool
  | [], _ => true
  | _ :: _, [] => false
  | a :: as, b :: bs =>
    if a.toNat < b.toNat then true
    else if b.toNat < a.toNat then false
    else listCharLe as bs

/-- Python string `<=`, used by `sorted()` on month keys. -/
def strLe (a b : String) : Bool := listCharLe a.data b.data

/-- Insert `x` into `l` after every element `y` with `le y x` (the building
block of a stable insertion sort). -/
def sinsert (le : α → α → Bool) (x : α) : List α → List α
  | [] => [x]
  | y :: ys => if le y x then y :: sinsert le x ys else x :: y :: ys

/-- Stable sort modelling Python's `sorted` (elements comparing equal keep
their original relative order). -/
def pySorted (le : α → α → Bool) (l : List α) : List α :=
  l.foldl (fun acc x => sinsert le x acc) []

/-- `dict.get(k, 0)` on an association list. -/
def lookup0 (m : List (String × ℚ)) (k : String) : ℚ :=
  (m.lookup k).getD 0

/-- Value of a non-empty list of decimal digit characters. -/
def natOfDigits (ds : List Char) : ℕ :=
  ds.foldl (fun a c => 10 * a + (c.toNat - 48)) 0

/-- Leading optional sign of a numeric literal: the sign factor and the
remaining characters. -/
def pySign (t : List Char) : ℤ × List Char :=
  match t with
  | [] => (1, [])
  | c :: r =>
    if c = '+' then (1, r)
    else if c = '-' then (-1, r)
    else (1, c :: r)

/-- Python `int(s)`: surrounding whitespace, an optional sign, then decimal
digits.  (Digit-group underscores and non-ASCII digits are not modelled;
no input in this development uses them.) -/
def pyInt (s : List Char) : Option ℤ :=
  let p := pySign (pyStripL s)
  if p.2 ≠ [] ∧ p.2.all Char.isDigit then
    some (p.1 * natOfDigits p.2)
  else none

/-- Python `float(s)` restricted to the character shapes reachable in
`clean_amount` (digits and at most one decimal point, with surrounding
whitespace allowed and an optional sign); anything else fails. -/
def pyFloat (s : List Char) : Option ℚ :=
  let p := pySign (pyStripL s)
  let ip := p.2.takeWhile Char.isDigit
  let rest := p.2.drop ip.length
  match rest with
  | [] => if ip ≠ [] then some ((p.1 : ℚ) * natOfDigits ip) else none
  | '.' :: frac =>
    if frac.all Char.isDigit ∧ (ip ≠ [] ∨ frac ≠ []) then
      some ((p.1 : ℚ) * mkRat (natOfDigits ip * 10 ^ frac.length + natOfDigits frac)
        (10 ^ frac.length))
    else none
  | _ => none

/-- `s.replace(pat, rep)` (all non-overlapping occurrences, left to right);
fuel-driven so that it is structurally recursive.  `pat` is assumed
non-empty, as in the source (`'LTM '`). -/
def replAux (pat rep : List Char) : ℕ → List Char → List Char
  | 0, s => s
  | _ + 1, [] => []
  | fuel + 1, c :: cs =>
    if pat.isPrefixOf (c :: cs) then
      rep ++ replAux pat rep fuel ((c :: cs).drop pat.length)
    else c :: replAux pat rep fuel cs

/-- `s.replace(pat, rep)`. -/
def pyReplace (s pat rep : List Char) : List Char :=
  replAux pat rep s.length s

/-- `s.split(sep)` for a one-character separator. -/
def splitChar (sep : Char) : List Char → List (List Char)
  | [] => [[]]
  | c :: cs =>
    if c = sep then [] :: splitChar sep cs
    else
      match splitChar sep cs with
      | [] => [[c]]
      | p :: ps => (c :: p) :: ps

/-- The fixed Swedish month-abbreviation table of `ltm_sort_key`. -/
def swedish_months : List (String × ℕ) :=
  [("jan", 1), ("feb", 2), ("mar", 3), ("apr", 4), ("maj", 5), ("jun", 6),
   ("jul", 7), ("aug", 8), ("sep", 9), ("okt", 10), ("nov", 11), ("dec", 12)]

/-- `ltm_sort_key` (source lines 474-483): strip `'LTM '`, split on `'-'`,
year = `int(parts[0]) + 2000`, month = `swedish_months.get(parts[1].lower(), 1)`;
any exception (unparsable year, missing second part) yields `(9999, 99)`. -/
def ltm_sort_key (s : String) : ℤ × ℕ :=
  let parts := splitChar '-' (pyReplace s.data ("LTM ").data [])
  match parts with
  | p0 :: p1 :: _ =>
    match pyInt p0 with
    | some y => (y + 2000, (swedish_months.lookup (String.mk (p1.map Char.toLower))).getD 1)
    | none => (9999, 99)
  | _ => (9999, 99)

/-- Lexicographic order on `(year, month)` sort keys (Python tuple order). -/
def pairLeB (p q : ℤ × ℕ) : Bool :=
  decide (p.1 < q.1) || (decide (p.1 = q.1) && decide (p.2 ≤ q.2))

/-- `sorted(keys, key=ltm_sort_key)` comparison. -/
def ltmLe (a b : String) : Bool := pairLeB (ltm_sort_key a) (ltm_sort_key b)

/-- Character class `[\d\s\xa0\.,]` of the `clean_amount` regex (`\s` in
Python's `str` regexes includes the no-break space). -/
def isAmountChar (c : Char) : Bool :=
  c.isDigit || pyWs c || c = '.' || c = ','

/-- The optional trailing group `(SEK|EUR|USD|GBP)?` with `re.IGNORECASE`,
combined with the subsequent `.upper()`: returns the canonical upper-case
code when the text at this position starts with one of the four codes. -/
def matchCurrency (cs : List Char) : Option String :=
  if String.mk ((cs.take 3).map Char.toLower) = ("sek") then some ("SEK")
  else if String.mk ((cs.take 3).map Char.toLower) = ("eur") then some ("EUR")
  else if String.mk ((cs.take 3).map Char.toLower) = ("usd") then some ("USD")
  else if String.mk ((cs.take 3).map Char.toLower) = ("gbp") then some ("GBP")
  else none

/-- `re.search(r',\d{2}$', s)`: the string ends in a comma followed by
exactly two digits. -/
def endsCommaTwoDigits (s : List Char) : Bool :=
  match s.reverse with
  | d1 :: d2 :: c :: _ => d1.isDigit && d2.isDigit && c = ','
  | _ => false

/-- `clean_amount` (source lines 446-455).  `none` models Python's
`(None, None)`.  The anchored match of `([\d\s\xa0\.,]+)\s*(SEK|EUR|USD|GBP)?`
is the maximal leading run of amount characters (the greedy group 1),
followed — after any remaining regex whitespace — by the optional currency
group. -/
def clean_amount (raw : Option String) : Option (ℚ × String) :=
  match raw with
  | none => none
  | some rawS =>
    let t := pyStripL rawS.data
    let run := t.takeWhile isAmountChar
    if run = [] then none
    else
      let rest := (t.drop run.length).dropWhile pyWs
      let s := run.filter (fun c => ¬ (c = '\xa0' ∨ c = ' '))
      let cur := (matchCurrency rest).getD ("SEK")
      let s2 :=
        if endsCommaTwoDigits s then
          (s.filter (fun c => c ≠ '.')).map (fun c => if c = ',' then '.' else c)
        else s.filter (fun c => c ≠ ',')
      match pyFloat s2 with
      | some q => some (q, cur)
      | none => none

/-- A spreadsheet cell value as the master parser sees it: a number, a
string, or an empty cell (`None`). -/
inductive Cell where
  | num (q : ℚ)
  | str (s : String)
  | blank
  deriving DecidableEq

/-- Python truthiness of a cell value (`0`, `''` and `None` are falsy). -/
def truthy : Cell → Bool
  | .num q => decide (q ≠ 0)
  | .str s => decide (s ≠ "")
  | .blank => false

/-- `str(cell)` where it is applied to identifiers (display only; no claim
depends on the rendering of numeric identifiers). -/
def pyStrCell : Cell → String
  | .num q => toString q
  | .str s => s
  | .blank => "None"

/-- One data row of a source sheet, after the header scan has classified the
columns: `id` is the identifier cell (column 1 for articles, column 2 for
customers), `name` is the display-name cell, and `cellAt k` is the row's
cell in the column classified under period key `k`. -/
structure Row where
  id : Cell
  name : Cell
  cellAt : String → Cell

/-- A source sheet after the header scan of lines 490-498 / 517-526: the
classified month, fiscal and LTM column keys (dict key lists, hence
duplicate-free in the source) plus the data rows. -/
structure Sheet where
  months : List String
  fys : List String
  ltms : List String
  rows : List Row

/-- The series-collection loop `for k, c in <cols>.items(): v = cell(r, c);
if v and isinstance(v, (int, float)): series[k] = v` — only truthy numeric
cells are stored. -/
def buildSeries (keys : List String) (cellAt : String → Cell) : List (String × ℚ) :=
  keys.filterMap (fun k =>
    match cellAt k with
    | .num q => if q = 0 then none else some (k, q)
    | _ => none)

/-- `any(series.values())`: some stored value is truthy. -/
def seriesAny (m : List (String × ℚ)) : Bool :=
  m.any (fun p => decide (p.2 ≠ 0))

/-- `if not ident or ident == 'Summa': continue` — keep the row otherwise. -/
def keepRow (ident : Cell) : Bool :=
  truthy ident && ¬ (ident = Cell.str ("Summa"))

structure Article where
  artikelnr : String
  artikelnamn : Cell
  monthly : List (String × ℚ)
  fy : List (String × ℚ)
  ltm : List (String × ℚ)
  deriving DecidableEq

structure Customer where
  kund : String
  monthly : List (String × ℚ)
  fy : List (String × ℚ)
  ltm : List (String × ℚ)
  deriving DecidableEq

structure Dataset where
  articles : List Article
  customers : List Customer
  monthly_totals : List (String × ℚ)
  ltm_trend : List (String × ℚ)
  deriving DecidableEq

/-- Article-row loop of `parse_master` (lines 500-513): skip blank/`Summa`
rows, collect the three series, keep the row only if `monthly` or `fy` has a
truthy value. -/
def parseArticles (sh : Sheet) : List Article :=
  sh.rows.filterMap (fun r =>
    if keepRow r.id then
      let a : Article :=
        { artikelnr := pyStrCell r.id
        , artikelnamn := if truthy r.name then r.name else Cell.str ("")
        , monthly := buildSeries sh.months r.cellAt
        , fy := buildSeries sh.fys r.cellAt
        , ltm := buildSeries sh.ltms r.cellAt }
      if seriesAny a.monthly || seriesAny a.fy then some a else none
    else none)

/-- Customer-row loop of `parse_master` (lines 528-541); the identifier is
column 2 (`kund`). -/
def parseCustomers (sh : Sheet) : List Customer :=
  sh.rows.filterMap (fun r =>
    if keepRow r.id then
      let c : Customer :=
        { kund := pyStrCell r.id
        , monthly := buildSeries sh.months r.cellAt
        , fy := buildSeries sh.fys r.cellAt
        , ltm := buildSeries sh.ltms r.cellAt }
      if seriesAny c.monthly || seriesAny c.fy then some c else none
    else none)

/-- `parse_master` (lines 485-551): parse both sheets, then derive
`monthly_totals` (per calendar month, summed over articles) and `ltm_trend`
(per LTM label, summed over customers).  The source sorts the key sets
before building each dict; the sort orders only the dict's iteration
order and does not affect any lookup. -/
def parse_master (artSheet custSheet : Sheet) : Dataset :=
  let articles := parseArticles artSheet
  let customers := parseCustomers custSheet
  let all_m := (articles.flatMap (fun a => a.monthly.map Prod.fst)).dedup
  let monthly_totals := (pySorted strLe all_m).map
    (fun m => (m, (articles.map (fun a => lookup0 a.monthly m)).sum))
  let all_l := (customers.flatMap (fun c => c.ltm.map Prod.fst)).dedup
  let ltm_trend := (pySorted ltmLe all_l).map
    (fun l => (l, (customers.map (fun c => lookup0 c.ltm l)).sum))
  ⟨articles, customers, monthly_totals, ltm_trend⟩

inductive Cohort where
  | churned
  | declining
  | growing
  | new
  deriving DecidableEq

/-- The four-way `if/elif` guard chain shared by `analyze_cohorts`
(lines 560-574) and `analyze_ltm_decomposition` (lines 627-634):
churned, new, declining (`chg < 0`), growing (`chg > 0`), else nothing. -/
def cohortOf (cur_v pre_v : ℚ) : Option Cohort :=
  if pre_v > 0 ∧ cur_v = 0 then some .churned
  else if pre_v = 0 ∧ cur_v > 0 then some .new
  else if cur_v - pre_v < 0 then some .declining
  else if cur_v - pre_v > 0 then some .growing
  else none

structure ChurnRec where
  kund : String
  previous : ℚ
  current : ℚ
  change : ℚ
  last_month : Option String
  deriving DecidableEq

structure MoveRec where
  kund : String
  previous : ℚ
  current : ℚ
  change : ℚ
  pct : ℚ
  deriving DecidableEq

structure NewRec where
  kund : String
  current : ℚ
  deriving DecidableEq

/-- Last calendar month with positive revenue (lines 562-567): scan the
sorted month keys in reverse chronological order. -/
def last_month (c : Customer) : Option String :=
  ((pySorted strLe (c.monthly.map Prod.fst)).reverse).find?
    (fun m => decide (lookup0 c.monthly m > 0))

/-- One iteration of the classification loop of `analyze_cohorts`
(lines 555-574): prepend the customer's record to the list selected by the
`if/elif` chain. -/
def addCohort (curr prev : String) (c : Customer)
    (acc : List ChurnRec × List MoveRec × List MoveRec × List NewRec) :
    List ChurnRec × List MoveRec × List MoveRec × List NewRec :=
  match cohortOf (lookup0 c.ltm curr) (lookup0 c.ltm prev) with
  | some .churned =>
    ({ kund := c.kund, previous := lookup0 c.ltm prev, current := lookup0 c.ltm curr
     , change := lookup0 c.ltm curr - lookup0 c.ltm prev
     , last_month := last_month c } :: acc.1, acc.2.1, acc.2.2.1, acc.2.2.2)
  | some .new =>
    (acc.1, acc.2.1, acc.2.2.1,
     { kund := c.kund, current := lookup0 c.ltm curr } :: acc.2.2.2)
  | some .declining =>
    (acc.1,
     { kund := c.kund, previous := lookup0 c.ltm prev, current := lookup0 c.ltm curr
     , change := lookup0 c.ltm curr - lookup0 c.ltm prev
     , pct := if 0 < lookup0 c.ltm prev then
         (lookup0 c.ltm curr - lookup0 c.ltm prev) / lookup0 c.ltm prev * 100 else 0 } :: acc.2.1,
     acc.2.2.1, acc.2.2.2)
  | some .growing =>
    (acc.1, acc.2.1,
     { kund := c.kund, previous := lookup0 c.ltm prev, current := lookup0 c.ltm curr
     , change := lookup0 c.ltm curr - lookup0 c.ltm prev
     , pct := if 0 < lookup0 c.ltm prev then
         (lookup0 c.ltm curr - lookup0 c.ltm prev) / lookup0 c.ltm prev * 100 else 0 } :: acc.2.2.1,
     acc.2.2.2)
  | none => acc

/-- The classification loop of `analyze_cohorts` (lines 554-574), producing
the four lists in source order. -/
def cohortLists (curr prev : String) : List Customer →
    List ChurnRec × List MoveRec × List MoveRec × List NewRec
  | [] => ([], [], [], [])
  | c :: rest => addCohort curr prev c (cohortLists curr prev rest)

/-- One step of the churn-timeline accumulation (lines 582-588): an
insertion-ordered dict of `{count, total}` per bucket. -/
def timelineAdd (tl : List (String × ℕ × ℚ)) (m : String) (prevVal : ℚ) :
    List (String × ℕ × ℚ) :=
  if (tl.lookup m).isSome then
    tl.map (fun e => if e.1 = m then (e.1, e.2.1 + 1, e.2.2 + prevVal) else e)
  else tl ++ [(m, 1, prevVal)]

structure CohortResult where
  churned : List ChurnRec
  declining : List MoveRec
  growing : List MoveRec
  new : List NewRec
  churn_timeline : List (String × ℕ × ℚ)

/-- `analyze_cohorts` (lines 553-590): classify, apply the four fixed sort
orders, and build the churn timeline (`c.get('last_month') or 'Unknown'`
falls back for both a missing and a falsy bucket label). -/
def analyze_cohorts (data : Dataset) (curr prev : String) : CohortResult :=
  { churned := pySorted (fun a b => decide (b.previous ≤ a.previous))
      (cohortLists curr prev data.customers).1
  , declining := pySorted (fun a b => decide (a.change ≤ b.change))
      (cohortLists curr prev data.customers).2.1
  , growing := pySorted (fun a b => decide (b.change ≤ a.change))
      (cohortLists curr prev data.customers).2.2.1
  , new := pySorted (fun a b => decide (b.current ≤ a.current))
      (cohortLists curr prev data.customers).2.2.2
  , churn_timeline :=
      (pySorted (fun a b => decide (b.previous ≤ a.previous))
        (cohortLists curr prev data.customers).1).foldl
        (fun tl c =>
          timelineAdd tl
            (match c.last_month with
             | some m => if m = "" then "Unknown" else m
             | none => "Unknown")
            c.previous) [] }

/-- `churn_loss = sum(c['previous'] for c in cohorts['churned'])`
(source line 827). -/
def churn_loss_of (R : CohortResult) : ℚ :=
  (R.churned.map (fun r => r.previous)).sum

/-- `decline_loss = abs(sum(c['change'] for c in cohorts['declining']))`
(source line 828). -/
def decline_loss_of (R : CohortResult) : ℚ :=
  |(R.declining.map (fun r => r.change)).sum|

/-- `growth_gain = sum(c['change'] for c in cohorts['growing'])`
(source line 829). -/
def growth_gain_of (R : CohortResult) : ℚ :=
  (R.growing.map (fun r => r.change)).sum

/-- `new_gain = sum(c['current'] for c in cohorts['new'])`
(source line 830). -/
def new_gain_of (R : CohortResult) : ℚ :=
  (R.new.map (fun r => r.current)).sum

/-- Python `l[-n:]` (note `l[-0:]` is the whole list). -/
def pySliceLast (n : ℕ) (l : List α) : List α :=
  if n = 0 then l else l.drop (l.length - n)

/-- `sorted(data['ltm_trend'].keys(), key=ltm_sort_key)`. -/
def sortedLtmKeys (data : Dataset) : List String :=
  pySorted ltmLe (data.ltm_trend.map Prod.fst)

/-- `all_ltms[-num_periods:] if len(all_ltms) >= num_periods else all_ltms`. -/
def recentLtmKeys (data : Dataset) (num_periods : ℕ) : List String :=
  let all_ltms := sortedLtmKeys data
  if num_periods ≤ all_ltms.length then pySliceLast num_periods all_ltms else all_ltms

/-- One iteration of the accumulation loop of `analyze_ltm_decomposition`
(lines 623-634): add the customer's contribution to the running sums
`(churn_loss, decline_loss, growth_gain, new_gain)`. -/
def decompStep (curr_ltm prev_ltm : String) (s : ℚ × ℚ × ℚ × ℚ) (c : Customer) :
    ℚ × ℚ × ℚ × ℚ :=
  match cohortOf (lookup0 c.ltm curr_ltm) (lookup0 c.ltm prev_ltm) with
  | some .churned => (s.1 + lookup0 c.ltm prev_ltm, s.2.1, s.2.2.1, s.2.2.2)
  | some .new => (s.1, s.2.1, s.2.2.1, s.2.2.2 + lookup0 c.ltm curr_ltm)
  | some .declining =>
    (s.1, s.2.1 + (lookup0 c.ltm prev_ltm - lookup0 c.ltm curr_ltm), s.2.2.1, s.2.2.2)
  | some .growing =>
    (s.1, s.2.1, s.2.2.1 + (lookup0 c.ltm curr_ltm - lookup0 c.ltm prev_ltm), s.2.2.2)
  | none => s

/-- The per-pair accumulation loop of `analyze_ltm_decomposition`
(lines 618-634): running sums over all customers. -/
def decompSums (customers : List Customer) (curr_ltm prev_ltm : String) :
    ℚ × ℚ × ℚ × ℚ :=
  customers.foldl (decompStep curr_ltm prev_ltm) (0, 0, 0, 0)

structure DecompRec where
  period : String
  total_change : ℚ
  churn : ℚ
  decline : ℚ
  growth : ℚ
  new : ℚ
  deriving DecidableEq

structure DecompResult where
  periods : List String
  decomposition : List DecompRec
  deriving DecidableEq

/-- `analyze_ltm_decomposition` (lines 605-648). -/
def analyze_ltm_decomposition (data : Dataset) (num_periods : ℕ) : DecompResult :=
  let all_ltms := sortedLtmKeys data
  if all_ltms.length < 2 then ⟨[], []⟩
  else
    let recent_ltms := recentLtmKeys data num_periods
    let decomposition := (recent_ltms.zip (recent_ltms.drop 1)).map
      (fun p =>
        let prev_ltm := p.1
        let curr_ltm := p.2
        let s := decompSums data.customers curr_ltm prev_ltm
        { period := curr_ltm
        , total_change := lookup0 data.ltm_trend curr_ltm - lookup0 data.ltm_trend prev_ltm
        , churn := -s.1
        , decline := -s.2.1
        , growth := s.2.2.1
        , new := s.2.2.2 })
    ⟨recent_ltms.drop 1, decomposition⟩

/-- Direct per-customer churn loss for a period pair: the sum of `prev` over
customers with `prev > 0` and `cur == 0` (the independently verifiable form
of §4.4 case 1 / §4.6). -/
def churn_loss_direct (customers : List Customer) (currK prevK : String) : ℚ :=
  ((customers.filter (fun c =>
      decide (0 < lookup0 c.ltm prevK ∧ lookup0 c.ltm currK = 0))).map
    (fun c => lookup0 c.ltm prevK)).sum

/-- Direct per-customer decline loss: the sum of `prev - cur` over customers
with `cur < prev` that are not churned. -/
def decline_loss_direct (customers : List Customer) (currK prevK : String) : ℚ :=
  ((customers.filter (fun c =>
      decide (lookup0 c.ltm currK < lookup0 c.ltm prevK ∧
        ¬ (0 < lookup0 c.ltm prevK ∧ lookup0 c.ltm currK = 0)))).map
    (fun c => lookup0 c.ltm prevK - lookup0 c.ltm currK)).sum

/-- Direct per-customer growth gain: the sum of `cur - prev` over customers
with `cur > prev` that are not new. -/
def growth_gain_direct (customers : List Customer) (currK prevK : String) : ℚ :=
  ((customers.filter (fun c =>
      decide (lookup0 c.ltm prevK < lookup0 c.ltm currK ∧
        ¬ (lookup0 c.ltm prevK = 0 ∧ 0 < lookup0 c.ltm currK)))).map
    (fun c => lookup0 c.ltm currK - lookup0 c.ltm prevK)).sum

/-- Direct per-customer new gain: the sum of `cur` over customers with
`prev == 0` and `cur > 0`. -/
def new_gain_direct (customers : List Customer) (currK prevK : String) : ℚ :=
  ((customers.filter (fun c =>
      decide (lookup0 c.ltm prevK = 0 ∧ 0 < lookup0 c.ltm currK))).map
    (fun c => lookup0 c.ltm currK)).sum

/-- Count of trailing strictly-decreasing steps, scanned on the reversed
window (lines 674-679 of `analyze_ltm_trajectories`). -/
def cdAux : List ℚ → ℕ
  | a :: b :: rest => if a < b then cdAux (b :: rest) + 1 else 0
  | _ => 0

/-- `consecutive_declines`: steps counted from the most recent value
backwards until a non-decrease breaks the run. -/
def consecutive_declines (v : List ℚ) : ℕ := cdAux v.reverse

/-- Python `max(l)` on a non-empty list (`0` junk value for `[]`). -/
def listMax : List ℚ → ℚ
  | [] => 0
  | x :: xs => xs.foldl max x

/-- Python `l[-1]` on a non-empty list (`0` junk value for `[]`). -/
def lastD (v : List ℚ) : ℚ := v.getLast?.getD 0

/-- `all(v[i] < v[i-1] for i in range(1, len(v)) if v[i-1] > 0)`
(line 682). -/
def allDeclining (v : List ℚ) : Bool :=
  (v.zip (v.drop 1)).all (fun p => if p.1 > 0 then decide (p.2 < p.1) else true)

structure AtRiskRec where
  kund : String
  current : ℚ
  peak : ℚ
  decline_pct : ℚ
  consecutive_months : ℕ
  trajectory : List ℚ
  deriving DecidableEq

structure ConsDeclRec where
  kund : String
  start : ℚ
  current : ℚ
  decline_pct : ℚ
  trajectory : List ℚ
  deriving DecidableEq

structure TrajResult where
  at_risk : List AtRiskRec
  consistent_decline : List ConsDeclRec
  periods : List String

/-- The per-customer at-risk computation of `analyze_ltm_trajectories`
(lines 666-696): skip below the 50,000 materiality floor, require a run of
at least 3 consecutive declines and a positive last value; `peak` is
`max(v[:-count])` when the window is longer than the run, else `v[0]`. -/
def atRiskCheck (kund : String) (values_only : List ℚ) : Option AtRiskRec :=
  if listMax values_only < 50000 then none
  else
    let cd := consecutive_declines values_only
    if 3 ≤ cd ∧ 0 < lastD values_only then
      let peak_val :=
        if cd < values_only.length then listMax (values_only.take (values_only.length - cd))
        else values_only.headD 0
      let curr_val := lastD values_only
      some
        { kund := kund
        , current := curr_val
        , peak := peak_val
        , decline_pct := if 0 < peak_val then (peak_val - curr_val) / peak_val * 100 else 0
        , consecutive_months := cd
        , trajectory := if 6 ≤ values_only.length then pySliceLast 6 values_only else values_only }
    else none

/-- The per-customer consistent-decline computation (lines 682, 698-705). -/
def consDeclCheck (kund : String) (values_only : List ℚ) : Option ConsDeclRec :=
  if listMax values_only < 50000 then none
  else if allDeclining values_only ∧ 4 ≤ values_only.length ∧ 0 < lastD values_only then
    some
      { kund := kund
      , start := values_only.headD 0
      , current := lastD values_only
      , decline_pct :=
          if 0 < values_only.headD 0 then
            (values_only.headD 0 - lastD values_only) / values_only.headD 0 * 100
          else 0
      , trajectory := values_only }
  else none

/-- `analyze_ltm_trajectories` (lines 651-715). -/
def analyze_ltm_trajectories (data : Dataset) (num_periods : ℕ) : TrajResult :=
  let all_ltms := sortedLtmKeys data
  if all_ltms.length < 3 then ⟨[], [], []⟩
  else
    let recent_ltms :=
      if num_periods ≤ all_ltms.length then pySliceLast num_periods all_ltms else all_ltms
    let at_risk := data.customers.filterMap
      (fun c => atRiskCheck c.kund (recent_ltms.map (lookup0 c.ltm)))
    let consistent := data.customers.filterMap
      (fun c => consDeclCheck c.kund (recent_ltms.map (lookup0 c.ltm)))
    ⟨(pySorted (fun a b => decide (b.decline_pct ≤ a.decline_pct)) at_risk).take 10
    , (pySorted (fun a b => decide (b.start - b.current ≤ a.start - a.current)) consistent).take 10
    , recent_ltms⟩

/-- Outcome of `json.loads` on the extracted brace block — an external
library call, modelled by its two observable behaviours (a parsed mapping,
or an exception).  Mapping values are abstracted to strings. -/
inductive LoadsResult where
  | parsed (m : List (String × String))
  | failed
  deriving DecidableEq

/-- Body-level outcome of the commentary HTTP response: `response.json()`
raising, the `result['content'][0]['text']` extraction raising, or an
extracted text together with the behaviour of `json.loads` on its brace
block. -/
inductive BodyResult where
  | jsonError
  | structureError
  | content (text : String) (loads : LoadsResult)
  deriving DecidableEq

/-- Outcome of `requests.post`: a raised transport error (connection
failure or timeout), or a response with a status code and body. -/
inductive ApiOutcome where
  | transportError
  | response (status : ℕ) (body : BodyResult)
  deriving DecidableEq

/-- `re.search(r'\x7b[\s\S]*\x7d', content)`: the match runs from the first
opening brace to the last closing brace after it, if any. -/
def braceSearch (t : List Char) : Option (List Char) :=
  match t.findIdx? (fun c => c = Char.ofNat 123) with
  | none => none
  | some i =>
    match t.reverse.findIdx? (fun c => c = Char.ofNat 125) with
    | none => none
    | some jr =>
      let j := t.length - 1 - jr
      if i < j then some ((t.drop i).take (j - i + 1)) else none

/-- `generate_ai_commentary` (source lines 130-283), as a function of the
API key and the call outcome.  `some m` models returning the dict `m`;
`some []` models returning the empty dict; `none` models Python's implicit
`return None` (the path where the status is 200 but the regex finds no
brace block, which falls off the end of the function). -/
def generate_ai_commentary (api_key : String) (outcome : ApiOutcome) :
    Option (List (String × String)) :=
  if api_key = "" then some []
  else
    match outcome with
    | .transportError => some []
    | .response status body =>
      if status = 200 then
        match body with
        | .jsonError => some []
        | .structureError => some []
        | .content text loads =>
          match braceSearch text.data with
          | some _ =>
            match loads with
            | .parsed m => some m
            | .failed => some []
          | none => none
      else some []

/-! Concrete inputs used by the witness theorems below. -/

/-- A dataset with 13 chronological LTM keys and no customers. -/
def exDataset13 : Dataset :=
  { articles := []
  , customers := []
  , monthly_totals := []
  , ltm_trend :=
      [(("LTM 24-jan"), 1), (("LTM 24-feb"), 2), (("LTM 24-mar"), 3), (("LTM 24-apr"), 4),
       (("LTM 24-maj"), 5), (("LTM 24-jun"), 6), (("LTM 24-jul"), 7), (("LTM 24-aug"), 8),
       (("LTM 24-sep"), 9), (("LTM 24-okt"), 10), (("LTM 24-nov"), 11), (("LTM 24-dec"), 12),
       (("LTM 25-jan"), 13)] }

/-- The 5-period LTM window of the spec's at-risk example. -/
def exWindow : List ℚ := [100000, 95000, 80000, 60000, 55000]

/-- An article sheet with one data row. -/
def exSheetA : Sheet :=
  { months := ["2024-01", "2024-02"]
  , fys := ["FY24"]
  , ltms := [("LTM 24-jan")]
  , rows := [{ id := Cell.str ("A1"), name := Cell.str ("Widget")
             , cellAt := fun k =>
                 if k = "2024-01" then Cell.num 5
                 else if k = "2024-02" then Cell.num 0
                 else Cell.blank }] }

/-- A customer sheet with one data row. -/
def exSheetC : Sheet :=
  { months := ["2024-01"]
  , fys := []
  , ltms := [("LTM 24-jan")]
  , rows := [{ id := Cell.str ("K1"), name := Cell.blank
             , cellAt := fun k =>
                 if k = "LTM 24-jan" then Cell.num 7
                 else if k = "2024-01" then Cell.num 3
                 else Cell.blank }] }

/-- The article that `parse_master exSheetA exSheetC` retains. -/
def exArticle : Article :=
  { artikelnr := "A1"
  , artikelnamn := Cell.str ("Widget")
  , monthly := [(("2024-01"), 5)]
  , fy := []
  , ltm := [] }

/-- The customer that `parse_master exSheetA exSheetC` retains. -/
def exCustomer : Customer :=
  { kund := "K1"
  , monthly := [(("2024-01"), 3)]
  , fy := []
  , ltm := [(("LTM 24-jan"), 7)] }

/-- A response text containing a brace-delimited block. -/
def exBraceText : String := String.mk [Char.ofNat 123, 'a', Char.ofNat 125]

/-- A dataset with two customers and two LTM keys, exercising every cohort. -/
def exDataset2 : Dataset :=
  { articles := []
  , customers :=
      [ { kund := "Churny", monthly := [(("2024-03"), 2)], fy := []
        , ltm := [(("LTM 24-jan"), 500000)] }
      , { kund := "Grower", monthly := [], fy := []
        , ltm := [(("LTM 24-jan"), 100), (("LTM 25-jan"), 250)] } ]
  , monthly_totals := []
  , ltm_trend := [(("LTM 24-jan"), 500100), (("LTM 25-jan"), 250)] }

/-! ## General lemmas about the modelling primitives -/

theorem sinsert_perm (le : α → α → Bool) (x : α) (l : List α) :
    (sinsert le x l).Perm (x :: l) := by
  induction l with
  | nil => simp [sinsert]
  | cons y ys ih =>
    simp only [sinsert]
    split
    · exact (ih.cons y).trans (List.Perm.swap x y ys)
    · exact List.Perm.refl _

theorem pySorted_perm (le : α → α → Bool) (l : List α) : (pySorted le l).Perm l := by
  suffices h : ∀ (l acc : List α),
      (l.foldl (fun acc x => sinsert le x acc) acc).Perm (l ++ acc) by
    simpa [pySorted] using h l []
  intro l
  induction l with
  | nil => intro acc; simp
  | cons x xs ih =>
    intro acc
    simp only [List.foldl_cons]
    refine (ih (sinsert le x acc)).trans ?_
    have h1 : (xs ++ sinsert le x acc).Perm (xs ++ x :: acc) :=
      List.Perm.append_left xs (sinsert_perm le x acc)
    exact h1.trans List.perm_middle

theorem pySorted_length (le : α → α → Bool) (l : List α) :
    (pySorted le l).length = l.length :=
  (pySorted_perm le l).length_eq

theorem pySorted_mem (le : α → α → Bool) (l : List α) (x : α) :
    x ∈ pySorted le l ↔ x ∈ l :=
  (pySorted_perm le l).mem_iff

theorem pySorted_map_sum (le : α → α → Bool) (l : List α) (f : α → ℚ) :
    ((pySorted le l).map f).sum = (l.map f).sum :=
  ((pySorted_perm le l).map f).sum_eq

theorem lookup0_keyMap (keys : List String) (f : String → ℚ) (k : String) :
    lookup0 (keys.map (fun m => (m, f m))) k = if k ∈ keys then f k else 0 := by
  induction keys with
  | nil => simp [lookup0]
  | cons m ms ih =>
    by_cases h : k = m
    · subst h
      simp [lookup0, List.lookup]
    · have hb : (k == m) = false := by simpa using h
      simp only [List.map_cons, lookup0, List.lookup, hb, List.mem_cons]
      simpa [lookup0, h] using ih

theorem lookup0_eq_zero_of_not_mem (m : List (String × ℚ)) (k : String)
    (h : k ∉ m.map Prod.fst) : lookup0 m k = 0 := by
  induction m with
  | nil => rfl
  | cons p ps ih =>
    simp only [List.map_cons, List.mem_cons] at h
    push_neg at h
    have hb : (k == p.1) = false := by simpa using h.1
    simp only [lookup0, List.lookup, hb]
    simpa [lookup0] using ih h.2

/-! ## C7: amount-parser decimal-comma convention and examples -/

/-- C7: the amount parser applies the decimal-comma convention (comma as
decimal separator exactly when the numeric run ends in a comma plus two
digits, the other separator stripped as a thousands separator): the four
specification examples evaluate as stated, `"1 234,50 SEK"` exercising the
comma-decimal branch and `"1,234.50"` the period-decimal branch. -/
theorem clean_amount_examples :
    clean_amount (some ("1 234,50 SEK")) = some (1234.50, "SEK") ∧
    clean_amount (some ("1,234.50")) = some (1234.50, "SEK") ∧
    clean_amount (some ("500 EUR")) = some (500, "EUR") ∧
    clean_amount (some ("n/a")) = none := by
  exact ⟨by decide, by decide, by decide, by decide⟩

/-! ## C10: the parsed currency code is always one of the four known codes -/

theorem matchCurrency_cases (cs : List Char) :
    matchCurrency cs = none ∨ matchCurrency cs = some ("SEK") ∨
    matchCurrency cs = some ("EUR") ∨ matchCurrency cs = some ("USD") ∨
    matchCurrency cs = some ("GBP") := by
  unfold matchCurrency
  split_ifs <;> simp

/-- C10: every currency code produced by the amount parser is `"SEK"`,
`"EUR"`, `"USD"` or `"GBP"`; an unknown trailing code such as `"NOK"` is not
captured, the number still parses and the currency defaults to `"SEK"`. -/
theorem clean_amount_currency_mem (raw : Option String) (v : ℚ) (c : String)
    (h : clean_amount raw = some (v, c)) :
    (c = "SEK" ∨ c = "EUR" ∨ c = "USD" ∨ c = "GBP") ∧
    clean_amount (some ("500 NOK")) = some (500, "SEK") := by
  refine ⟨?_, by decide⟩
  match raw with
  | none => simp [clean_amount] at h
  | some s =>
    simp only [clean_amount] at h
    split at h
    · exact absurd h (by simp)
    · rcases matchCurrency_cases ((pyStripL s.data).drop
        ((pyStripL s.data).takeWhile isAmountChar).length |>.dropWhile pyWs) with hm | hm | hm | hm | hm <;>
        rw [hm] at h <;>
        split at h <;>
        simp_all

theorem clean_amount_currency_mem_witness :
    ((("EUR") = "SEK" ∨ ("EUR") = "EUR" ∨ ("EUR") = "USD" ∨ ("EUR") = "GBP") ∧
      clean_amount (some ("500 NOK")) = some (500, "SEK")) :=
  clean_amount_currency_mem (some ("500 EUR")) 500 ("EUR") (by decide)

/-! ## C3: commentary wrapper failure behaviour -/

/-- C3 counterexample: with a non-empty API key, an HTTP 200 response whose
extracted text contains no brace-delimited block makes
`generate_ai_commentary` fall off the end of the function and return `None`
— not a mapping, refuting "it never returns anything other than a mapping". -/
theorem generate_ai_commentary_none_on_no_brace :
    generate_ai_commentary ("key") (.response 200 (.content ("no json here") .failed)) = none := by
  decide

/-- C3 (amended): the commentary wrapper returns the empty mapping on a
transport error, on every non-200 status, when `response.json()` fails,
when the content extraction fails, and when `json.loads` fails on an
extracted brace block; but when a 200 response's text contains no brace
block it returns `None` rather than a mapping. -/
theorem generate_ai_commentary_amended (key : String) (hk : key ≠ "") :
    (generate_ai_commentary key .transportError = some []) ∧
    (∀ st body, st ≠ 200 → generate_ai_commentary key (.response st body) = some []) ∧
    (generate_ai_commentary key (.response 200 .jsonError) = some []) ∧
    (generate_ai_commentary key (.response 200 .structureError) = some []) ∧
    (∀ t loads, braceSearch t.data = none →
      generate_ai_commentary key (.response 200 (.content t loads)) = none) ∧
    (∀ t, (braceSearch t.data).isSome →
      generate_ai_commentary key (.response 200 (.content t .failed)) = some []) ∧
    (∀ t m, (braceSearch t.data).isSome →
      generate_ai_commentary key (.response 200 (.content t (.parsed m))) = some m) := by
  refine ⟨?_, ?_, ?_, ?_, ?_, ?_, ?_⟩
  · simp [generate_ai_commentary, hk]
  · intro st body hst
    simp [generate_ai_commentary, hk, hst]
  · simp [generate_ai_commentary, hk]
  · simp [generate_ai_commentary, hk]
  · intro t loads hb
    simp [generate_ai_commentary, hk, hb]
  · intro t hb
    rcases Option.isSome_iff_exists.mp hb with ⟨s, hs⟩
    simp [generate_ai_commentary, hk, hs]
  · intro t m hb
    rcases Option.isSome_iff_exists.mp hb with ⟨s, hs⟩
    simp [generate_ai_commentary, hk, hs]

theorem generate_ai_commentary_amended_witness :
    (generate_ai_commentary ("key") (.response 404 .jsonError) = some []) ∧
    (generate_ai_commentary ("key")
      (.response 200 (.content exBraceText (.parsed [("summary", "ok")]))) =
        some [("summary", "ok")]) :=
  ⟨(generate_ai_commentary_amended ("key") (by decide)).2.1 404 .jsonError (by decide),
   (generate_ai_commentary_amended ("key") (by decide)).2.2.2.2.2.2 exBraceText
     [("summary", "ok")] (by decide)⟩

/-! ## C4: period-key resolver and malformed labels -/

/-- C4 counterexample: `"LTM 25-xyz"` does not parse against the 12-entry
Swedish month table, yet its sort key is `(2025, 1)` — the `.get` default
month 1 — not the sentinel `(9999, 99)`, and it sorts *before* the
well-formed `"LTM 25-nov"`. -/
theorem ltm_sort_key_unknown_month_not_sentinel :
    ltm_sort_key ("LTM 25-xyz") = (2025, 1) ∧
    ltm_sort_key ("LTM 25-xyz") ≠ (9999, 99) ∧
    pairLeB (ltm_sort_key ("LTM 25-xyz")) (ltm_sort_key ("LTM 25-nov")) = true ∧
    ltm_sort_key ("LTM 25-nov") = (2025, 11) := by
  exact ⟨by decide, by decide, by decide, by decide⟩

theorem dropWhile_of_head_false {p : Char → Bool} :
    ∀ {l : List Char}, (∀ c ∈ l, p c = false) → l.dropWhile p = l
  | [], _ => rfl
  | c :: cs, h => by
    have hc : p c = false := h c (by simp)
    simp [List.dropWhile, hc]

theorem pyStripL_of_no_ws (l : List Char) (h : ∀ c ∈ l, pyWs c = false) :
    pyStripL l = l := by
  unfold pyStripL
  rw [dropWhile_of_head_false h]
  rw [dropWhile_of_head_false (by intro c hc; exact h c (List.mem_reverse.mp hc))]
  exact l.reverse_reverse

theorem pyWs_eq_false_of_isDigit (c : Char) (h : c.isDigit = true) : pyWs c = false := by
  cases hw : pyWs c
  · rfl
  · exfalso
    have hw' := hw
    simp only [pyWs, decide_eq_true_eq] at hw'
    rcases hw' with h' | h' | h' | h' | h' | h' | h' <;> subst h' <;>
      exact absurd h (by decide)

theorem pyWs_eq_false_of_isAlpha (c : Char) (h : c.isAlpha = true) : pyWs c = false := by
  cases hw : pyWs c
  · rfl
  · exfalso
    have hw' := hw
    simp only [pyWs, decide_eq_true_eq] at hw'
    rcases hw' with h' | h' | h' | h' | h' | h' | h' <;> subst h' <;>
      exact absurd h (by decide)

theorem ne_space_of_isDigit (c : Char) (h : c.isDigit = true) : c ≠ ' ' := by
  intro he; subst he; exact absurd h (by decide)

theorem ne_space_of_isAlpha (c : Char) (h : c.isAlpha = true) : c ≠ ' ' := by
  intro he; subst he; exact absurd h (by decide)

theorem ne_dash_of_isDigit (c : Char) (h : c.isDigit = true) : c ≠ '-' := by
  intro he; subst he; exact absurd h (by decide)

theorem ne_dash_of_isAlpha (c : Char) (h : c.isAlpha = true) : c ≠ '-' := by
  intro he; subst he; exact absurd h (by decide)

theorem ltmPat_not_prefix :
    ∀ (s : List Char), (∀ c ∈ s, c ≠ ' ') →
      (['L', 'T', 'M', ' '].isPrefixOf s) = false := by
  intro s h
  match s with
  | [] => simp [List.isPrefixOf]
  | [_] => simp [List.isPrefixOf]
  | [_, _] => simp [List.isPrefixOf]
  | [_, _, _] => simp [List.isPrefixOf]
  | c0 :: c1 :: c2 :: c3 :: rest =>
    have h3 : c3 ≠ ' ' := h c3 (by simp)
    simp [List.isPrefixOf, h3]
    exact fun _ _ _ he => h3 he.symm

theorem replAux_no_space (fuel : ℕ) :
    ∀ (s : List Char), (∀ c ∈ s, c ≠ ' ') →
      replAux ['L', 'T', 'M', ' '] [] fuel s = s := by
  induction fuel with
  | zero => intro s _; rfl
  | succ n ih =>
    intro s h
    match s with
    | [] => rfl
    | c :: cs =>
      have hp := ltmPat_not_prefix (c :: cs) h
      simp only [replAux, hp]
      simp only [Bool.false_eq_true, if_false]
      rw [ih cs (fun x hx => h x (by simp [hx]))]

theorem splitChar_no_sep (sep : Char) :
    ∀ (l : List Char), (∀ c ∈ l, c ≠ sep) → splitChar sep l = [l] := by
  intro l
  induction l with
  | nil => intro _; rfl
  | cons c cs ih =>
    intro h
    have hc : c ≠ sep := h c (by simp)
    simp only [splitChar, hc, if_false]
    rw [ih (fun x hx => h x (by simp [hx]))]

theorem natOfDigits_pair (d1 d2 : Char) :
    natOfDigits [d1, d2] = 10 * (d1.toNat - 48) + (d2.toNat - 48) := by
  simp [natOfDigits, List.foldl]

theorem pyInt_two_digits (d1 d2 : Char) (h1 : d1.isDigit = true) (h2 : d2.isDigit = true) :
    pyInt [d1, d2] = some ((10 * (d1.toNat - 48) + (d2.toNat - 48) : ℕ) : ℤ) := by
  have hs : pyStripL [d1, d2] = [d1, d2] := by
    refine pyStripL_of_no_ws _ ?_
    intro c hc
    have hc' : c = d1 ∨ c = d2 := by simpa using hc
    rcases hc' with hc' | hc' <;> subst hc'
    · exact pyWs_eq_false_of_isDigit _ h1
    · exact pyWs_eq_false_of_isDigit _ h2
  have hplus : d1 ≠ '+' := by intro he; subst he; exact absurd h1 (by decide)
  have hminus : d1 ≠ '-' := ne_dash_of_isDigit d1 h1
  have hall : ([d1, d2].all Char.isDigit) = true := by simp [List.all, h1, h2]
  simp [pyInt, hs, pySign, hplus, hminus, hall, natOfDigits_pair]

/-- C4 (amended): labels of the shape `LTM <d1><d2>-<letters>` never get the
sentinel: the resolver yields `(2000 + year, month)` via the Swedish table
when the lower-cased month abbreviation is known and `(2000 + year, 1)` —
the table's `.get` default — when it is not, so a label with an unknown
month sorts with January of its year rather than after all well-formed
labels.  The sentinel `(9999, 99)` arises exactly from the `except` paths:
a label whose first `'-'`-field does not parse as an integer, or a label
with no `'-'` at all. -/
theorem ltm_sort_key_amended :
    (∀ (d1 d2 : Char) (mon : String), d1.isDigit = true → d2.isDigit = true →
      mon.data ≠ [] → (∀ c ∈ mon.data, c.isAlpha = true) →
      ltm_sort_key (String.mk ('L' :: 'T' :: 'M' :: ' ' :: d1 :: d2 :: '-' :: mon.data)) =
        (((10 * (d1.toNat - 48) + (d2.toNat - 48) : ℕ) : ℤ) + 2000,
          (swedish_months.lookup (String.mk (mon.data.map Char.toLower))).getD 1)) ∧
    (∀ (s : String) (p0 : List Char) (ps : List (List Char)),
      splitChar '-' (pyReplace s.data (("LTM ").data) []) = p0 :: ps →
      pyInt p0 = none → ltm_sort_key s = (9999, 99)) ∧
    (∀ (s : String) (p0 : List Char),
      splitChar '-' (pyReplace s.data (("LTM ").data) []) = [p0] →
      ltm_sort_key s = (9999, 99)) := by
  refine ⟨?_, ?_, ?_⟩
  · intro d1 d2 mon h1 h2 hne halpha
    have hnosp : ∀ c ∈ (d1 :: d2 :: '-' :: mon.data), c ≠ ' ' := by
      intro c hc
      simp only [List.mem_cons] at hc
      rcases hc with hc | hc | hc | hc
      · subst hc; exact ne_space_of_isDigit _ h1
      · subst hc; exact ne_space_of_isDigit _ h2
      · subst hc; decide
      · exact ne_space_of_isAlpha c (halpha c hc)
    have hpat : ("LTM ").data = ['L', 'T', 'M', ' '] := by decide
    have hrep : pyReplace ('L' :: 'T' :: 'M' :: ' ' :: d1 :: d2 :: '-' :: mon.data)
        (("LTM ").data) [] = d1 :: d2 :: '-' :: mon.data := by
      unfold pyReplace
      rw [hpat]
      have hlen : ('L' :: 'T' :: 'M' :: ' ' :: d1 :: d2 :: '-' :: mon.data).length =
          (6 + mon.data.length) + 1 := by
        simp
        omega
      rw [hlen]
      have hpre : (['L', 'T', 'M', ' '].isPrefixOf
          ('L' :: 'T' :: 'M' :: ' ' :: d1 :: d2 :: '-' :: mon.data)) = true := by
        simp [List.isPrefixOf]
      simp only [replAux, hpre, if_true, List.nil_append]
      have hdrop : ('L' :: 'T' :: 'M' :: ' ' :: d1 :: d2 :: '-' :: mon.data).drop
          (['L', 'T', 'M', ' '] : List Char).length = d1 :: d2 :: '-' :: mon.data := rfl
      rw [hdrop]
      exact replAux_no_space _ _ hnosp
    have hnodash : ∀ c ∈ mon.data, c ≠ '-' := fun c hc => ne_dash_of_isAlpha c (halpha c hc)
    have hsplit : splitChar '-' (d1 :: d2 :: '-' :: mon.data) = [[d1, d2], mon.data] := by
      have e1 : splitChar '-' ('-' :: mon.data) = [] :: splitChar '-' mon.data := by
        simp [splitChar]
      simp only [splitChar, ne_dash_of_isDigit d1 h1, ne_dash_of_isDigit d2 h2, if_false,
        e1, splitChar_no_sep '-' mon.data hnodash]
      simp
    unfold ltm_sort_key
    rw [show (String.mk ('L' :: 'T' :: 'M' :: ' ' :: d1 :: d2 :: '-' :: mon.data)).data =
      'L' :: 'T' :: 'M' :: ' ' :: d1 :: d2 :: '-' :: mon.data from rfl]
    rw [hrep, hsplit]
    simp only [pyInt_two_digits d1 d2 h1 h2]
  · intro s p0 ps hsplit hpy
    unfold ltm_sort_key
    rw [hsplit]
    cases ps with
    | nil => rfl
    | cons p1 rest => simp [hpy]
  · intro s p0 hsplit
    unfold ltm_sort_key
    rw [hsplit]

theorem ltm_sort_key_amended_witness :
    (('2').isDigit = true ∧ ('5').isDigit = true ∧
      ("nov").data ≠ [] ∧ (∀ c ∈ ("nov").data, c.isAlpha = true)) ∧
    ltm_sort_key (String.mk ('L' :: 'T' :: 'M' :: ' ' :: '2' :: '5' :: '-' :: ("nov").data)) =
      (((10 * (('2').toNat - 48) + (('5').toNat - 48) : ℕ) : ℤ) + 2000,
        (swedish_months.lookup (String.mk (("nov").data.map Char.toLower))).getD 1) :=
  ⟨⟨by decide, by decide, by decide, by decide⟩,
   ltm_sort_key_amended.1 '2' '5' ("nov") (by decide) (by decide) (by decide) (by decide)⟩

/-! ## C2: decomposition window size -/

/-- C2 counterexample: with 13 LTM keys available (≥ N+1 for the default
N = 12) the decomposition takes the last 12 keys — `all_ltms[-12:]` — and
emits 11 records, not the 12 records the claim requires. -/
theorem decomposition_record_count_counterexample :
    exDataset13.ltm_trend.length = 13 ∧
    (analyze_ltm_decomposition exDataset13 12).decomposition.length = 11 ∧
    ¬ (analyze_ltm_decomposition exDataset13 12).decomposition.length = 12 := by
  exact ⟨by decide, by decide, by decide⟩

/-! ## C1: the cohort classification is an exact partition -/

theorem cohortOf_churned_iff (cv pv : ℚ) :
    cohortOf cv pv = some Cohort.churned ↔ 0 < pv ∧ cv = 0 := by
  unfold cohortOf
  split_ifs with h1 h2 h3 h4
  · exact iff_of_true rfl h1
  · exact iff_of_false (by simp) h1
  · exact iff_of_false (by simp) h1
  · exact iff_of_false (by simp) h1
  · exact iff_of_false (by simp) h1

theorem cohortOf_new_iff (cv pv : ℚ) :
    cohortOf cv pv = some Cohort.new ↔ pv = 0 ∧ 0 < cv := by
  unfold cohortOf
  split_ifs with h1 h2 h3 h4
  · refine iff_of_false (by simp) ?_
    rintro ⟨hp0, _⟩
    rw [hp0] at h1
    exact absurd h1.1 (lt_irrefl 0)
  · exact iff_of_true rfl h2
  · exact iff_of_false (by simp) h2
  · exact iff_of_false (by simp) h2
  · exact iff_of_false (by simp) h2

theorem cohortOf_declining_iff (cv pv : ℚ) :
    cohortOf cv pv = some Cohort.declining ↔ cv < pv ∧ ¬ (0 < pv ∧ cv = 0) := by
  unfold cohortOf
  split_ifs with h1 h2 h3 h4
  · exact iff_of_false (by simp) (fun hp => hp.2 h1)
  · refine iff_of_false (by simp) ?_
    rintro ⟨hlt, _⟩
    rw [h2.1] at hlt
    exact absurd (hlt.trans h2.2) (lt_irrefl cv)
  · exact iff_of_true rfl ⟨sub_neg.mp h3, h1⟩
  · exact iff_of_false (by simp) (fun hp => h3 (sub_neg.mpr hp.1))
  · exact iff_of_false (by simp) (fun hp => h3 (sub_neg.mpr hp.1))

theorem cohortOf_growing_iff (cv pv : ℚ) :
    cohortOf cv pv = some Cohort.growing ↔ pv < cv ∧ ¬ (pv = 0 ∧ 0 < cv) := by
  unfold cohortOf
  split_ifs with h1 h2 h3 h4
  · refine iff_of_false (by simp) ?_
    rintro ⟨hlt, _⟩
    rw [h1.2] at hlt
    exact absurd (h1.1.trans hlt) (lt_irrefl 0)
  · exact iff_of_false (by simp) (fun hp => hp.2 h2)
  · refine iff_of_false (by simp) ?_
    rintro ⟨hlt, _⟩
    exact absurd (sub_pos.mpr hlt) (asymm h3)
  · exact iff_of_true rfl ⟨sub_pos.mp h4, h2⟩
  · exact iff_of_false (by simp) (fun hp => h4 (sub_pos.mpr hp.1))

theorem cohortOf_none_iff (cv pv : ℚ) :
    cohortOf cv pv = none ↔ cv = pv := by
  unfold cohortOf
  split_ifs with h1 h2 h3 h4
  · refine iff_of_false (by simp) ?_
    intro he
    rw [he, h1.2] at h1
    exact absurd h1.1 (lt_irrefl 0)
  · refine iff_of_false (by simp) ?_
    intro he
    have h5 := h2.2
    rw [he, h2.1] at h5
    exact absurd h5 (lt_irrefl 0)
  · refine iff_of_false (by simp) ?_
    intro he
    rw [he] at h3
    simp at h3
  · refine iff_of_false (by simp) ?_
    intro he
    rw [he] at h4
    simp at h4
  · refine iff_of_true rfl ?_
    have hge := not_lt.mp h3
    have hle := not_lt.mp h4
    linarith

theorem cohortLists_len (curr prev : String) (custs : List Customer) :
    (cohortLists curr prev custs).1.length =
      custs.countP (fun c =>
        cohortOf (lookup0 c.ltm curr) (lookup0 c.ltm prev) == some Cohort.churned) ∧
    (cohortLists curr prev custs).2.1.length =
      custs.countP (fun c =>
        cohortOf (lookup0 c.ltm curr) (lookup0 c.ltm prev) == some Cohort.declining) ∧
    (cohortLists curr prev custs).2.2.1.length =
      custs.countP (fun c =>
        cohortOf (lookup0 c.ltm curr) (lookup0 c.ltm prev) == some Cohort.growing) ∧
    (cohortLists curr prev custs).2.2.2.length =
      custs.countP (fun c =>
        cohortOf (lookup0 c.ltm curr) (lookup0 c.ltm prev) == some Cohort.new) := by
  induction custs with
  | nil => exact ⟨rfl, rfl, rfl, rfl⟩
  | cons c rest ih =>
    obtain ⟨ih1, ih2, ih3, ih4⟩ := ih
    simp only [cohortLists, addCohort]
    cases h : cohortOf (lookup0 c.ltm curr) (lookup0 c.ltm prev) with
    | none => simp [h, List.countP_cons, ih1, ih2, ih3, ih4]
    | some k => cases k <;> simp [h, List.countP_cons, ih1, ih2, ih3, ih4]

theorem countP_isSome_split (curr prev : String) (custs : List Customer) :
    custs.countP (fun c =>
        cohortOf (lookup0 c.ltm curr) (lookup0 c.ltm prev) == some Cohort.churned) +
      custs.countP (fun c =>
        cohortOf (lookup0 c.ltm curr) (lookup0 c.ltm prev) == some Cohort.declining) +
      custs.countP (fun c =>
        cohortOf (lookup0 c.ltm curr) (lookup0 c.ltm prev) == some Cohort.growing) +
      custs.countP (fun c =>
        cohortOf (lookup0 c.ltm curr) (lookup0 c.ltm prev) == some Cohort.new) =
    custs.countP (fun c =>
      (cohortOf (lookup0 c.ltm curr) (lookup0 c.ltm prev)).isSome) := by
  induction custs with
  | nil => rfl
  | cons c rest ih =>
    simp only [List.countP_cons]
    cases h : cohortOf (lookup0 c.ltm curr) (lookup0 c.ltm prev) with
    | none => simp [h]; omega
    | some k => cases k <;> simp [h] <;> omega

/-- C1: for fixed `(current, previous)` keys the cohort classifier puts each
customer in exactly one of the four lists — churned iff `prev > 0 ∧ cur = 0`,
new iff `prev = 0 ∧ cur > 0`, declining iff `cur < prev` and not churned,
growing iff `cur > prev` and not new, in that priority order — and in no
list exactly when `cur = prev`: each list's length equals the count of
customers satisfying its condition, the four lengths add up to the count of
customers with `cur ≠ prev`, and the shared guard chain `cohortOf` realises
exactly those four conditions. -/
theorem analyze_cohorts_partition (d : Dataset) (curr prev : String) :
    ((analyze_cohorts d curr prev).churned.length =
      (d.customers.filter (fun c =>
        decide (0 < lookup0 c.ltm prev ∧ lookup0 c.ltm curr = 0))).length) ∧
    ((analyze_cohorts d curr prev).new.length =
      (d.customers.filter (fun c =>
        decide (lookup0 c.ltm prev = 0 ∧ 0 < lookup0 c.ltm curr))).length) ∧
    ((analyze_cohorts d curr prev).declining.length =
      (d.customers.filter (fun c =>
        decide (lookup0 c.ltm curr < lookup0 c.ltm prev ∧
          ¬ (0 < lookup0 c.ltm prev ∧ lookup0 c.ltm curr = 0)))).length) ∧
    ((analyze_cohorts d curr prev).growing.length =
      (d.customers.filter (fun c =>
        decide (lookup0 c.ltm prev < lookup0 c.ltm curr ∧
          ¬ (lookup0 c.ltm prev = 0 ∧ 0 < lookup0 c.ltm curr)))).length) ∧
    ((analyze_cohorts d curr prev).churned.length +
      (analyze_cohorts d curr prev).declining.length +
      (analyze_cohorts d curr prev).growing.length +
      (analyze_cohorts d curr prev).new.length =
      (d.customers.filter (fun c =>
        decide (lookup0 c.ltm curr ≠ lookup0 c.ltm prev))).length) ∧
    (∀ cv pv : ℚ,
      (cohortOf cv pv = none ↔ cv = pv) ∧
      (cohortOf cv pv = some Cohort.churned ↔ 0 < pv ∧ cv = 0) ∧
      (cohortOf cv pv = some Cohort.new ↔ pv = 0 ∧ 0 < cv) ∧
      (cohortOf cv pv = some Cohort.declining ↔
        cv < pv ∧ ¬ (0 < pv ∧ cv = 0)) ∧
      (cohortOf cv pv = some Cohort.growing ↔
        pv < cv ∧ ¬ (pv = 0 ∧ 0 < cv))) := by
  obtain ⟨l1, l2, l3, l4⟩ := cohortLists_len curr prev d.customers
  have e1 : (analyze_cohorts d curr prev).churned.length =
      (cohortLists curr prev d.customers).1.length := pySorted_length _ _
  have e2 : (analyze_cohorts d curr prev).declining.length =
      (cohortLists curr prev d.customers).2.1.length := pySorted_length _ _
  have e3 : (analyze_cohorts d curr prev).growing.length =
      (cohortLists curr prev d.customers).2.2.1.length := pySorted_length _ _
  have e4 : (analyze_cohorts d curr prev).new.length =
      (cohortLists curr prev d.customers).2.2.2.length := pySorted_length _ _
  have c1 : (cohortLists curr prev d.customers).1.length =
      (d.customers.filter (fun c =>
        decide (0 < lookup0 c.ltm prev ∧ lookup0 c.ltm curr = 0))).length := by
    rw [l1, List.countP_eq_length_filter]
    refine congrArg List.length (List.filter_congr ?_)
    intro c _
    by_cases hP : 0 < lookup0 c.ltm prev ∧ lookup0 c.ltm curr = 0
    · rw [(cohortOf_churned_iff _ _).mpr hP, decide_eq_true hP]
      simp
    · have hno : cohortOf (lookup0 c.ltm curr) (lookup0 c.ltm prev) ≠ some Cohort.churned :=
        fun he => hP ((cohortOf_churned_iff _ _).mp he)
      have hb : (cohortOf (lookup0 c.ltm curr) (lookup0 c.ltm prev) ==
          some Cohort.churned) = false := by simpa using hno
      rw [hb, decide_eq_false hP]
  have c2 : (cohortLists curr prev d.customers).2.1.length =
      (d.customers.filter (fun c =>
        decide (lookup0 c.ltm curr < lookup0 c.ltm prev ∧
          ¬ (0 < lookup0 c.ltm prev ∧ lookup0 c.ltm curr = 0)))).length := by
    rw [l2, List.countP_eq_length_filter]
    refine congrArg List.length (List.filter_congr ?_)
    intro c _
    by_cases hP : lookup0 c.ltm curr < lookup0 c.ltm prev ∧
        ¬ (0 < lookup0 c.ltm prev ∧ lookup0 c.ltm curr = 0)
    · rw [(cohortOf_declining_iff _ _).mpr hP, decide_eq_true hP]
      simp
    · have hno : cohortOf (lookup0 c.ltm curr) (lookup0 c.ltm prev) ≠ some Cohort.declining :=
        fun he => hP ((cohortOf_declining_iff _ _).mp he)
      have hb : (cohortOf (lookup0 c.ltm curr) (lookup0 c.ltm prev) ==
          some Cohort.declining) = false := by simpa using hno
      rw [hb, decide_eq_false hP]
  have c3 : (cohortLists curr prev d.customers).2.2.1.length =
      (d.customers.filter (fun c =>
        decide (lookup0 c.ltm prev < lookup0 c.ltm curr ∧
          ¬ (lookup0 c.ltm prev = 0 ∧ 0 < lookup0 c.ltm curr)))).length := by
    rw [l3, List.countP_eq_length_filter]
    refine congrArg List.length (List.filter_congr ?_)
    intro c _
    by_cases hP : lookup0 c.ltm prev < lookup0 c.ltm curr ∧
        ¬ (lookup0 c.ltm prev = 0 ∧ 0 < lookup0 c.ltm curr)
    · rw [(cohortOf_growing_iff _ _).mpr hP, decide_eq_true hP]
      simp
    · have hno : cohortOf (lookup0 c.ltm curr) (lookup0 c.ltm prev) ≠ some Cohort.growing :=
        fun he => hP ((cohortOf_growing_iff _ _).mp he)
      have hb : (cohortOf (lookup0 c.ltm curr) (lookup0 c.ltm prev) ==
          some Cohort.growing) = false := by simpa using hno
      rw [hb, decide_eq_false hP]
  have c4 : (cohortLists curr prev d.customers).2.2.2.length =
      (d.customers.filter (fun c =>
        decide (lookup0 c.ltm prev = 0 ∧ 0 < lookup0 c.ltm curr))).length := by
    rw [l4, List.countP_eq_length_filter]
    refine congrArg List.length (List.filter_congr ?_)
    intro c _
    by_cases hP : lookup0 c.ltm prev = 0 ∧ 0 < lookup0 c.ltm curr
    · rw [(cohortOf_new_iff _ _).mpr hP, decide_eq_true hP]
      simp
    · have hno : cohortOf (lookup0 c.ltm curr) (lookup0 c.ltm prev) ≠ some Cohort.new :=
        fun he => hP ((cohortOf_new_iff _ _).mp he)
      have hb : (cohortOf (lookup0 c.ltm curr) (lookup0 c.ltm prev) ==
          some Cohort.new) = false := by simpa using hno
      rw [hb, decide_eq_false hP]
  refine ⟨e1.trans c1, e4.trans c4, e2.trans c2, e3.trans c3, ?_, ?_⟩
  · rw [e1, e2, e3, e4, l1, l2, l3, l4]
    rw [countP_isSome_split curr prev d.customers, List.countP_eq_length_filter]
    refine congrArg List.length (List.filter_congr ?_)
    intro c _
    by_cases hP : lookup0 c.ltm curr = lookup0 c.ltm prev
    · rw [(cohortOf_none_iff _ _).mpr hP]
      simp [hP]
    · have hs : (cohortOf (lookup0 c.ltm curr) (lookup0 c.ltm prev)).isSome := by
        rcases ho : cohortOf (lookup0 c.ltm curr) (lookup0 c.ltm prev) with _ | k
        · exact absurd ((cohortOf_none_iff _ _).mp ho) hP
        · rfl
      simp [hs, hP]
  · intro cv pv
    exact ⟨cohortOf_none_iff cv pv, cohortOf_churned_iff cv pv, cohortOf_new_iff cv pv,
      cohortOf_declining_iff cv pv, cohortOf_growing_iff cv pv⟩

/-! ## C5: churn loss plus decline loss partitions the total drop -/

theorem sum_nonpos_of_mem (l : List ℚ) (h : ∀ x ∈ l, x ≤ 0) : l.sum ≤ 0 := by
  induction l with
  | nil => simp
  | cons x xs ih =>
    simp only [List.sum_cons]
    have hx := h x (by simp)
    have hxs := ih (fun y hy => h y (by simp [hy]))
    linarith

theorem sum_map_neg (l : List α) (f : α → ℚ) :
    (l.map (fun a => -(f a))).sum = -((l.map f).sum) := by
  induction l with
  | nil => simp
  | cons x xs ih => simp [ih]; ring

theorem cohortLists_sums (curr prev : String) (custs : List Customer) :
    (((cohortLists curr prev custs).1.map (fun r => r.previous)).sum =
      ((custs.filter (fun c =>
          decide (0 < lookup0 c.ltm prev ∧ lookup0 c.ltm curr = 0))).map
        (fun c => lookup0 c.ltm prev)).sum) ∧
    (((cohortLists curr prev custs).2.1.map (fun r => r.change)).sum =
      ((custs.filter (fun c =>
          decide (lookup0 c.ltm curr < lookup0 c.ltm prev ∧
            ¬ (0 < lookup0 c.ltm prev ∧ lookup0 c.ltm curr = 0)))).map
        (fun c => lookup0 c.ltm curr - lookup0 c.ltm prev)).sum) := by
  induction custs with
  | nil => exact ⟨rfl, rfl⟩
  | cons c rest ih =>
    obtain ⟨ih1, ih2⟩ := ih
    simp only [cohortLists, addCohort]
    cases h : cohortOf (lookup0 c.ltm curr) (lookup0 c.ltm prev) with
    | none =>
      have hch : ¬ (0 < lookup0 c.ltm prev ∧ lookup0 c.ltm curr = 0) := fun hp =>
        Option.noConfusion (h ▸ (cohortOf_churned_iff _ _).mpr hp)
      have hde : ¬ (lookup0 c.ltm curr < lookup0 c.ltm prev ∧
          ¬ (0 < lookup0 c.ltm prev ∧ lookup0 c.ltm curr = 0)) := fun hp =>
        Option.noConfusion (h ▸ (cohortOf_declining_iff _ _).mpr hp)
      constructor
      · rw [List.filter_cons_of_neg (by simpa using hch)]
        exact ih1
      · rw [List.filter_cons_of_neg (by simpa using hde)]
        exact ih2
    | some k =>
      cases k with
      | churned =>
        have hp := (cohortOf_churned_iff _ _).mp h
        have hde : ¬ (lookup0 c.ltm curr < lookup0 c.ltm prev ∧
            ¬ (0 < lookup0 c.ltm prev ∧ lookup0 c.ltm curr = 0)) := fun hq => hq.2 hp
        constructor
        · rw [List.filter_cons_of_pos (by exact decide_eq_true hp)]
          dsimp only [List.map_cons, List.sum_cons]
          rw [ih1]
        · rw [List.filter_cons_of_neg (by simpa using hde)]
          exact ih2
      | declining =>
        have hp := (cohortOf_declining_iff _ _).mp h
        constructor
        · rw [List.filter_cons_of_neg (by simpa using hp.2)]
          exact ih1
        · rw [List.filter_cons_of_pos (by exact decide_eq_true hp)]
          dsimp only [List.map_cons, List.sum_cons]
          rw [ih2]
      | growing =>
        have hch : ¬ (0 < lookup0 c.ltm prev ∧ lookup0 c.ltm curr = 0) := fun hq => by
          have he := (cohortOf_churned_iff _ _).mpr hq
          rw [h] at he
          simp at he
        have hde : ¬ (lookup0 c.ltm curr < lookup0 c.ltm prev ∧
            ¬ (0 < lookup0 c.ltm prev ∧ lookup0 c.ltm curr = 0)) := fun hq => by
          have he := (cohortOf_declining_iff _ _).mpr hq
          rw [h] at he
          simp at he
        constructor
        · rw [List.filter_cons_of_neg (by simpa using hch)]
          exact ih1
        · rw [List.filter_cons_of_neg (by simpa using hde)]
          exact ih2
      | new =>
        have hch : ¬ (0 < lookup0 c.ltm prev ∧ lookup0 c.ltm curr = 0) := fun hq => by
          have he := (cohortOf_churned_iff _ _).mpr hq
          rw [h] at he
          simp at he
        have hde : ¬ (lookup0 c.ltm curr < lookup0 c.ltm prev ∧
            ¬ (0 < lookup0 c.ltm prev ∧ lookup0 c.ltm curr = 0)) := fun hq => by
          have he := (cohortOf_declining_iff _ _).mpr hq
          rw [h] at he
          simp at he
        constructor
        · rw [List.filter_cons_of_neg (by simpa using hch)]
          exact ih1
        · rw [List.filter_cons_of_neg (by simpa using hde)]
          exact ih2

theorem filter_lt_split (curr prev : String) (custs : List Customer) :
    ((custs.filter (fun c =>
        decide (lookup0 c.ltm curr < lookup0 c.ltm prev))).map
      (fun c => lookup0 c.ltm prev - lookup0 c.ltm curr)).sum =
    ((custs.filter (fun c =>
        decide (0 < lookup0 c.ltm prev ∧ lookup0 c.ltm curr = 0))).map
      (fun c => lookup0 c.ltm prev - lookup0 c.ltm curr)).sum +
    ((custs.filter (fun c =>
        decide (lookup0 c.ltm curr < lookup0 c.ltm prev ∧
          ¬ (0 < lookup0 c.ltm prev ∧ lookup0 c.ltm curr = 0)))).map
      (fun c => lookup0 c.ltm prev - lookup0 c.ltm curr)).sum := by
  induction custs with
  | nil => simp
  | cons c rest ih =>
    by_cases hch : 0 < lookup0 c.ltm prev ∧ lookup0 c.ltm curr = 0
    · have hlt : lookup0 c.ltm curr < lookup0 c.ltm prev := by
        rw [hch.2]; exact hch.1
      have hde : ¬ (lookup0 c.ltm curr < lookup0 c.ltm prev ∧
          ¬ (0 < lookup0 c.ltm prev ∧ lookup0 c.ltm curr = 0)) := fun hq => hq.2 hch
      rw [List.filter_cons_of_pos (by exact decide_eq_true hlt),
        List.filter_cons_of_pos (by exact decide_eq_true hch),
        List.filter_cons_of_neg (by simpa using hde)]
      dsimp only [List.map_cons, List.sum_cons]
      rw [ih]
      ring
    · by_cases hlt : lookup0 c.ltm curr < lookup0 c.ltm prev
      · have hde : lookup0 c.ltm curr < lookup0 c.ltm prev ∧
            ¬ (0 < lookup0 c.ltm prev ∧ lookup0 c.ltm curr = 0) := ⟨hlt, hch⟩
        rw [List.filter_cons_of_pos (by exact decide_eq_true hlt),
          List.filter_cons_of_neg (by simpa using hch),
          List.filter_cons_of_pos (by exact decide_eq_true hde)]
        dsimp only [List.map_cons, List.sum_cons]
        rw [ih]
        ring
      · have hde : ¬ (lookup0 c.ltm curr < lookup0 c.ltm prev ∧
            ¬ (0 < lookup0 c.ltm prev ∧ lookup0 c.ltm curr = 0)) := fun hq => hlt hq.1
        rw [List.filter_cons_of_neg (by simpa using hlt),
          List.filter_cons_of_neg (by simpa using hch),
          List.filter_cons_of_neg (by simpa using hde)]
        exact ih

/-- C5: for any dataset and period pair, `churn_loss + decline_loss`
(computed from the cohort lists exactly as the report does, lines 827-828)
equals the direct per-customer sum of `prev - cur` over all customers whose
value dropped (`cur < prev`): churned and declining cohorts together are
exactly the dropping customers and the two losses partition the total drop. -/
theorem cohort_loss_partition (d : Dataset) (curr prev : String) :
    churn_loss_of (analyze_cohorts d curr prev) +
      decline_loss_of (analyze_cohorts d curr prev) =
    ((d.customers.filter (fun c =>
        decide (lookup0 c.ltm curr < lookup0 c.ltm prev))).map
      (fun c => lookup0 c.ltm prev - lookup0 c.ltm curr)).sum := by
  unfold churn_loss_of decline_loss_of
  simp only [analyze_cohorts]
  rw [pySorted_map_sum, pySorted_map_sum]
  obtain ⟨s1, s2⟩ := cohortLists_sums curr prev d.customers
  rw [s1, s2]
  have habs : |((d.customers.filter (fun c =>
      decide (lookup0 c.ltm curr < lookup0 c.ltm prev ∧
        ¬ (0 < lookup0 c.ltm prev ∧ lookup0 c.ltm curr = 0)))).map
      (fun c => lookup0 c.ltm curr - lookup0 c.ltm prev)).sum| =
      ((d.customers.filter (fun c =>
        decide (lookup0 c.ltm curr < lookup0 c.ltm prev ∧
          ¬ (0 < lookup0 c.ltm prev ∧ lookup0 c.ltm curr = 0)))).map
        (fun c => lookup0 c.ltm prev - lookup0 c.ltm curr)).sum := by
    have hnonpos : ((d.customers.filter (fun c =>
        decide (lookup0 c.ltm curr < lookup0 c.ltm prev ∧
          ¬ (0 < lookup0 c.ltm prev ∧ lookup0 c.ltm curr = 0)))).map
        (fun c => lookup0 c.ltm curr - lookup0 c.ltm prev)).sum ≤ 0 := by
      refine sum_nonpos_of_mem _ ?_
      intro x hx
      rcases List.mem_map.mp hx with ⟨c, hc, hcx⟩
      have hcond := (List.mem_filter.mp hc).2
      have hcond' := of_decide_eq_true hcond
      subst hcx
      linarith [hcond'.1]
    rw [abs_of_nonpos hnonpos]
    rw [show (fun (c : Customer) => lookup0 c.ltm prev - lookup0 c.ltm curr) =
      (fun (c : Customer) => -(lookup0 c.ltm curr - lookup0 c.ltm prev)) from
      funext (fun c => by ring)]
    rw [sum_map_neg]
  rw [habs]
  have hchurn : ((d.customers.filter (fun c =>
      decide (0 < lookup0 c.ltm prev ∧ lookup0 c.ltm curr = 0))).map
      (fun c => lookup0 c.ltm prev)).sum =
      ((d.customers.filter (fun c =>
        decide (0 < lookup0 c.ltm prev ∧ lookup0 c.ltm curr = 0))).map
        (fun c => lookup0 c.ltm prev - lookup0 c.ltm curr)).sum := by
    refine congrArg List.sum (List.map_congr_left ?_)
    intro c hc
    have hcond := of_decide_eq_true (List.mem_filter.mp hc).2
    rw [hcond.2]
    ring
  rw [hchurn, filter_lt_split curr prev d.customers]

/-! ## C6: the derived total series are the per-entity sums -/

/-- C6: in every parsed dataset, `monthly_totals` at any calendar-month key
equals the sum of the retained articles' monthly values at that key
(missing = 0), and `ltm_trend` at any LTM label equals the sum of the
retained customers' LTM values at that label. -/
theorem parse_master_totals (A C : Sheet) :
    (∀ k, lookup0 (parse_master A C).monthly_totals k =
      ((parse_master A C).articles.map (fun a => lookup0 a.monthly k)).sum) ∧
    (∀ k, lookup0 (parse_master A C).ltm_trend k =
      ((parse_master A C).customers.map (fun c => lookup0 c.ltm k)).sum) := by
  constructor
  · intro k
    simp only [parse_master]
    by_cases hm : k ∈ pySorted strLe
        ((parseArticles A).flatMap (fun a => a.monthly.map Prod.fst)).dedup
    · rw [lookup0_keyMap, if_pos hm]
    · rw [lookup0_keyMap, if_neg hm]
      symm
      refine List.sum_eq_zero ?_
      intro x hx
      rcases List.mem_map.mp hx with ⟨a, ha, rfl⟩
      refine lookup0_eq_zero_of_not_mem _ _ ?_
      intro hmem
      refine hm ?_
      rw [pySorted_mem, List.mem_dedup]
      exact List.mem_flatMap.mpr ⟨a, ha, hmem⟩
  · intro k
    simp only [parse_master]
    by_cases hm : k ∈ pySorted ltmLe
        ((parseCustomers C).flatMap (fun c => c.ltm.map Prod.fst)).dedup
    · rw [lookup0_keyMap, if_pos hm]
    · rw [lookup0_keyMap, if_neg hm]
      symm
      refine List.sum_eq_zero ?_
      intro x hx
      rcases List.mem_map.mp hx with ⟨c, hc, rfl⟩
      refine lookup0_eq_zero_of_not_mem _ _ ?_
      intro hmem
      refine hm ?_
      rw [pySorted_mem, List.mem_dedup]
      exact List.mem_flatMap.mpr ⟨c, hc, hmem⟩

/-! ## C9: stored series values are always non-zero -/

theorem buildSeries_nonzero (keys : List String) (cellAt : String → Cell) :
    ∀ p ∈ buildSeries keys cellAt, p.2 ≠ 0 := by
  intro p hp
  rcases List.mem_filterMap.mp hp with ⟨k, _, hpk⟩
  rcases hcell : cellAt k with q | s | _ <;> rw [hcell] at hpk <;> dsimp only at hpk
  · by_cases hq : q = 0
    · rw [if_pos hq] at hpk
      exact Option.noConfusion hpk
    · rw [if_neg hq] at hpk
      cases Option.some.inj hpk
      exact hq
  · exact Option.noConfusion hpk
  · exact Option.noConfusion hpk

/-- C9: every value stored in a retained entity's monthly, fiscal, or LTM
series by the master parser is non-zero (zero-valued cells are dropped by
the `if v and isinstance(v, (int, float))` test exactly like non-numeric
cells), so a key present in a series map always carries a non-zero value
and downstream `get(key, 0)` consumers cannot distinguish an explicit zero
from an absent cell. -/
theorem parse_master_series_nonzero (A C : Sheet) :
    (∀ a ∈ (parse_master A C).articles,
      (∀ p ∈ a.monthly, p.2 ≠ 0) ∧ (∀ p ∈ a.fy, p.2 ≠ 0) ∧ (∀ p ∈ a.ltm, p.2 ≠ 0)) ∧
    (∀ c ∈ (parse_master A C).customers,
      (∀ p ∈ c.monthly, p.2 ≠ 0) ∧ (∀ p ∈ c.fy, p.2 ≠ 0) ∧ (∀ p ∈ c.ltm, p.2 ≠ 0)) := by
  constructor
  · intro a ha
    have ha' : a ∈ parseArticles A := by
      simpa [parse_master] using ha
    rcases List.mem_filterMap.mp ha' with ⟨r, _, hra⟩
    dsimp only [parseArticles] at hra
    split_ifs at hra <;>
      first
        | (cases Option.some.inj hra
           exact ⟨buildSeries_nonzero _ _, buildSeries_nonzero _ _, buildSeries_nonzero _ _⟩)
        | exact Option.noConfusion hra
  · intro c hc
    have hc' : c ∈ parseCustomers C := by
      simpa [parse_master] using hc
    rcases List.mem_filterMap.mp hc' with ⟨r, _, hrc⟩
    dsimp only [parseCustomers] at hrc
    split_ifs at hrc <;>
      first
        | (cases Option.some.inj hrc
           exact ⟨buildSeries_nonzero _ _, buildSeries_nonzero _ _, buildSeries_nonzero _ _⟩)
        | exact Option.noConfusion hrc

theorem parse_master_series_nonzero_witness :
    (exArticle ∈ (parse_master exSheetA exSheetC).articles ∧
      (("2024-01"), (5 : ℚ)) ∈ exArticle.monthly ∧ ((5 : ℚ)) ≠ 0) ∧
    (exCustomer ∈ (parse_master exSheetA exSheetC).customers ∧
      (("LTM 24-jan"), (7 : ℚ)) ∈ exCustomer.ltm ∧ ((7 : ℚ)) ≠ 0) :=
  ⟨⟨by decide, by decide,
    ((parse_master_series_nonzero exSheetA exSheetC).1 exArticle (by decide)).1
      (("2024-01"), (5 : ℚ)) (by decide)⟩,
   ⟨by decide, by decide,
    ((parse_master_series_nonzero exSheetA exSheetC).2 exCustomer (by decide)).2.2
      (("LTM 24-jan"), (7 : ℚ)) (by decide)⟩⟩

/-! ## C2 (amended): decomposition record contents -/

theorem getElem?_zip_of (l l' : List α) (i : ℕ) (a b : α)
    (ha : l[i]? = some a) (hb : l'[i]? = some b) : (l.zip l')[i]? = some (a, b) := by
  induction l generalizing l' i with
  | nil => simp at ha
  | cons x xs ih =>
    cases l' with
    | nil => simp at hb
    | cons y ys =>
      cases i with
      | zero =>
        simp only [List.getElem?_cons_zero] at ha hb
        cases ha; cases hb
        simp [List.zip_cons_cons]
      | succ n =>
        simp only [List.getElem?_cons_succ] at ha hb
        simpa using ih ys n ha hb

theorem decompStep_acc (cK pK : String) (custs : List Customer) :
    ∀ s : ℚ × ℚ × ℚ × ℚ,
      custs.foldl (decompStep cK pK) s =
        (s.1 + churn_loss_direct custs cK pK,
         s.2.1 + decline_loss_direct custs cK pK,
         s.2.2.1 + growth_gain_direct custs cK pK,
         s.2.2.2 + new_gain_direct custs cK pK) := by
  induction custs with
  | nil =>
    intro s
    simp [churn_loss_direct, decline_loss_direct, growth_gain_direct, new_gain_direct]
  | cons c rest ih =>
    intro s
    simp only [List.foldl_cons]
    rw [ih]
    unfold decompStep
    have hchP := cohortOf_churned_iff (lookup0 c.ltm cK) (lookup0 c.ltm pK)
    have hdeP := cohortOf_declining_iff (lookup0 c.ltm cK) (lookup0 c.ltm pK)
    have hgrP := cohortOf_growing_iff (lookup0 c.ltm cK) (lookup0 c.ltm pK)
    have hnwP := cohortOf_new_iff (lookup0 c.ltm cK) (lookup0 c.ltm pK)
    cases h : cohortOf (lookup0 c.ltm cK) (lookup0 c.ltm pK) with
    | none =>
      have hch : ¬ _ := fun hq => Option.noConfusion (h ▸ hchP.mpr hq)
      have hde : ¬ _ := fun hq => Option.noConfusion (h ▸ hdeP.mpr hq)
      have hgr : ¬ _ := fun hq => Option.noConfusion (h ▸ hgrP.mpr hq)
      have hnw : ¬ _ := fun hq => Option.noConfusion (h ▸ hnwP.mpr hq)
      unfold churn_loss_direct decline_loss_direct growth_gain_direct new_gain_direct
      rw [List.filter_cons_of_neg (by simpa using hch),
        List.filter_cons_of_neg (by simpa using hde),
        List.filter_cons_of_neg (by simpa using hgr),
        List.filter_cons_of_neg (by simpa using hnw)]
    | some k =>
      cases k with
      | churned =>
        have hp := hchP.mp h
        have hde : ¬ _ := fun hq => by
          have he := hdeP.mpr hq; rw [h] at he; simp at he
        have hgr : ¬ _ := fun hq => by
          have he := hgrP.mpr hq; rw [h] at he; simp at he
        have hnw : ¬ _ := fun hq => by
          have he := hnwP.mpr hq; rw [h] at he; simp at he
        unfold churn_loss_direct decline_loss_direct growth_gain_direct new_gain_direct
        rw [List.filter_cons_of_pos (by exact decide_eq_true hp),
          List.filter_cons_of_neg (by simpa using hde),
          List.filter_cons_of_neg (by simpa using hgr),
          List.filter_cons_of_neg (by simpa using hnw)]
        dsimp only [List.map_cons, List.sum_cons]
        simp only [Prod.mk.injEq]
        repeat' apply And.intro
        all_goals first | ring | trivial
      | declining =>
        have hp := hdeP.mp h
        have hch : ¬ _ := fun hq => by
          have he := hchP.mpr hq; rw [h] at he; simp at he
        have hgr : ¬ _ := fun hq => by
          have he := hgrP.mpr hq; rw [h] at he; simp at he
        have hnw : ¬ _ := fun hq => by
          have he := hnwP.mpr hq; rw [h] at he; simp at he
        unfold churn_loss_direct decline_loss_direct growth_gain_direct new_gain_direct
        rw [List.filter_cons_of_neg (by simpa using hch),
          List.filter_cons_of_pos (by exact decide_eq_true hp),
          List.filter_cons_of_neg (by simpa using hgr),
          List.filter_cons_of_neg (by simpa using hnw)]
        dsimp only [List.map_cons, List.sum_cons]
        simp only [Prod.mk.injEq]
        repeat' apply And.intro
        all_goals first | ring | trivial
      | growing =>
        have hp := hgrP.mp h
        have hch : ¬ _ := fun hq => by
          have he := hchP.mpr hq; rw [h] at he; simp at he
        have hde : ¬ _ := fun hq => by
          have he := hdeP.mpr hq; rw [h] at he; simp at he
        have hnw : ¬ _ := fun hq => by
          have he := hnwP.mpr hq; rw [h] at he; simp at he
        unfold churn_loss_direct decline_loss_direct growth_gain_direct new_gain_direct
        rw [List.filter_cons_of_neg (by simpa using hch),
          List.filter_cons_of_neg (by simpa using hde),
          List.filter_cons_of_pos (by exact decide_eq_true hp),
          List.filter_cons_of_neg (by simpa using hnw)]
        dsimp only [List.map_cons, List.sum_cons]
        simp only [Prod.mk.injEq]
        repeat' apply And.intro
        all_goals first | ring | trivial
      | new =>
        have hp := hnwP.mp h
        have hch : ¬ _ := fun hq => by
          have he := hchP.mpr hq; rw [h] at he; simp at he
        have hde : ¬ _ := fun hq => by
          have he := hdeP.mpr hq; rw [h] at he; simp at he
        have hgr : ¬ _ := fun hq => by
          have he := hgrP.mpr hq; rw [h] at he; simp at he
        unfold churn_loss_direct decline_loss_direct growth_gain_direct new_gain_direct
        rw [List.filter_cons_of_neg (by simpa using hch),
          List.filter_cons_of_neg (by simpa using hde),
          List.filter_cons_of_neg (by simpa using hgr),
          List.filter_cons_of_pos (by exact decide_eq_true hp)]
        dsimp only [List.map_cons, List.sum_cons]
        simp only [Prod.mk.injEq]
        repeat' apply And.intro
        all_goals first | ring | trivial

theorem decompSums_eq (custs : List Customer) (cK pK : String) :
    decompSums custs cK pK =
      (churn_loss_direct custs cK pK, decline_loss_direct custs cK pK,
       growth_gain_direct custs cK pK, new_gain_direct custs cK pK) := by
  rw [decompSums, decompStep_acc cK pK custs (0, 0, 0, 0)]
  simp

/-- C2 (amended): the decomposition takes the most recent `N` chronological
LTM keys — not `N + 1` — so with at least `N` keys it emits exactly `N - 1`
records; record `i` covers the pair `(keys[i], keys[i+1])` and carries the
period, `total_change = ltm_trend[curr] - ltm_trend[prev]`, and the four
components: negated churn loss, negated decline loss, growth gain and new
gain, each equal to its direct per-customer sum. -/
theorem analyze_ltm_decomposition_amended (d : Dataset) (N : ℕ)
    (h2 : 2 ≤ N) (hlen : N ≤ d.ltm_trend.length) :
    (analyze_ltm_decomposition d N).decomposition.length = N - 1 ∧
    (∀ i pK cK, (recentLtmKeys d N)[i]? = some pK →
      (recentLtmKeys d N)[i + 1]? = some cK →
      ((analyze_ltm_decomposition d N).decomposition)[i]? = some
        { period := cK
        , total_change := lookup0 d.ltm_trend cK - lookup0 d.ltm_trend pK
        , churn := -(churn_loss_direct d.customers cK pK)
        , decline := -(decline_loss_direct d.customers cK pK)
        , growth := growth_gain_direct d.customers cK pK
        , new := new_gain_direct d.customers cK pK }) := by
  have hall : (sortedLtmKeys d).length = d.ltm_trend.length := by
    rw [sortedLtmKeys, pySorted_length, List.length_map]
  have hnot : ¬ (sortedLtmKeys d).length < 2 := by omega
  have hrec_len : (recentLtmKeys d N).length = N := by
    rw [recentLtmKeys]
    rw [if_pos (by omega)]
    rw [pySliceLast, if_neg (by omega), List.length_drop]
    omega
  constructor
  · simp only [analyze_ltm_decomposition, if_neg hnot]
    simp only [List.length_map, List.length_zip, List.length_drop, hrec_len]
    omega
  · intro i pK cK hp hc
    have hc' : ((recentLtmKeys d N).drop 1)[i]? = some cK := by
      rw [List.getElem?_drop, Nat.add_comm 1 i]
      exact hc
    simp only [analyze_ltm_decomposition, if_neg hnot]
    rw [List.getElem?_map, getElem?_zip_of _ _ i pK cK hp hc']
    simp only [Option.map_some']
    refine congrArg some ?_
    rw [decompSums_eq]

theorem analyze_ltm_decomposition_amended_witness :
    ((2 ≤ 12 ∧ 12 ≤ exDataset13.ltm_trend.length) ∧
      (analyze_ltm_decomposition exDataset13 12).decomposition.length = 12 - 1) :=
  ⟨⟨by decide, by decide⟩,
   (analyze_ltm_decomposition_amended exDataset13 12 (by decide) (by decide)).1⟩

/-! ## C8: at-risk trajectory marking -/

theorem foldl_max_init_le (xs : List ℚ) : ∀ a : ℚ, a ≤ xs.foldl max a := by
  induction xs with
  | nil => intro a; exact le_rfl
  | cons y ys ih => intro a; exact (le_max_left a y).trans (ih (max a y))

theorem foldl_max_le_of_mem (xs : List ℚ) : ∀ (a x : ℚ), x ∈ xs → x ≤ xs.foldl max a := by
  induction xs with
  | nil => intro a x hx; simp at hx
  | cons y ys ih =>
    intro a x hx
    rcases List.mem_cons.mp hx with rfl | hx'
    · exact (le_max_right a x).trans (foldl_max_init_le ys (max a x))
    · exact ih (max a y) x hx'

theorem foldl_max_choice (xs : List ℚ) : ∀ a : ℚ, xs.foldl max a = a ∨ xs.foldl max a ∈ xs := by
  induction xs with
  | nil => intro a; exact Or.inl rfl
  | cons y ys ih =>
    intro a
    rw [List.foldl_cons]
    rcases ih (max a y) with h | h
    · rcases max_choice a y with hm | hm
      · exact Or.inl (by rw [h, hm])
      · refine Or.inr ?_
        rw [h, hm]
        simp
    · exact Or.inr (List.mem_cons_of_mem y h)

theorem le_listMax (l : List ℚ) (x : ℚ) (hx : x ∈ l) : x ≤ listMax l := by
  cases l with
  | nil => simp at hx
  | cons a t =>
    rcases List.mem_cons.mp hx with rfl | hx'
    · exact foldl_max_init_le t x
    · exact foldl_max_le_of_mem t a x hx'

theorem listMax_mem (l : List ℚ) (h : l ≠ []) : listMax l ∈ l := by
  cases l with
  | nil => exact absurd rfl h
  | cons a t =>
    rcases foldl_max_choice t a with h' | h'
    · rw [listMax, h']
      simp
    · rw [listMax]
      exact List.mem_cons_of_mem a h'

theorem listMax_reverse (l : List ℚ) (h : l ≠ []) : listMax l.reverse = listMax l := by
  refine le_antisymm ?_ ?_
  · exact le_listMax l _ (List.mem_reverse.mp (listMax_mem l.reverse (by simpa using h)))
  · exact le_listMax l.reverse _ (List.mem_reverse.mpr (listMax_mem l h))

theorem headD_mem (l : List ℚ) (h : l ≠ []) : l.headD 0 ∈ l := by
  cases l with
  | nil => exact absurd rfl h
  | cons a t => simp

theorem cdAux_lt_length (l : List ℚ) (h : l ≠ []) : cdAux l < l.length := by
  induction l with
  | nil => exact absurd rfl h
  | cons a t ih =>
    cases t with
    | nil => simp [cdAux]
    | cons b r =>
      simp only [cdAux]
      split_ifs with hab
      · have := ih (by simp)
        simp only [List.length_cons] at this ⊢
        omega
      · simp

theorem cdAux_take_lt (l : List ℚ) :
    ∀ x ∈ l.take (cdAux l), x < (l.drop (cdAux l)).headD 0 := by
  induction l with
  | nil => simp
  | cons a t ih =>
    cases t with
    | nil => simp [cdAux]
    | cons b r =>
      simp only [cdAux]
      split_ifs with hab
      · intro x hx
        rw [List.take_succ_cons] at hx
        rw [List.drop_succ_cons]
        rcases List.mem_cons.mp hx with rfl | hx'
        · cases hcd : cdAux (b :: r) with
          | zero => simpa using hab
          | succ m =>
            have hb : b ∈ (b :: r).take (cdAux (b :: r)) := by
              rw [hcd, List.take_succ_cons]
              simp
            exact hab.trans (hcd ▸ ih b hb)
        · exact ih x hx'
      · simp

theorem listMax_take_cd (v : List ℚ) (h1 : 1 ≤ consecutive_declines v)
    (hlt : consecutive_declines v < v.length) :
    listMax (v.take (v.length - consecutive_declines v)) = listMax v := by
  have hvnil : v ≠ [] := by
    intro h
    subst h
    simp [consecutive_declines, cdAux] at h1
  have hrnil : v.reverse ≠ [] := by simpa using hvnil
  have hcd : consecutive_declines v = cdAux v.reverse := rfl
  have htake : v.take (v.length - consecutive_declines v) =
      (v.reverse.drop (consecutive_declines v)).reverse := by
    rw [List.drop_reverse, List.reverse_reverse]
  have hdropnil : v.reverse.drop (consecutive_declines v) ≠ [] := by
    intro h
    have hlen := congrArg List.length h
    simp only [List.length_drop, List.length_reverse, List.length_nil] at hlen
    omega
  rw [htake, listMax_reverse _ hdropnil]
  have hstep : listMax (v.reverse.drop (consecutive_declines v)) = listMax v.reverse := by
    refine le_antisymm ?_ ?_
    · exact le_listMax v.reverse _ (List.mem_of_mem_drop (listMax_mem _ hdropnil))
    · have hm : listMax v.reverse ∈
          v.reverse.take (consecutive_declines v) ++ v.reverse.drop (consecutive_declines v) := by
        rw [List.take_append_drop]
        exact listMax_mem v.reverse hrnil
      rcases List.mem_append.mp hm with hmem | hmem
      · have hx := cdAux_take_lt v.reverse (listMax v.reverse) (hcd ▸ hmem)
        have hh := headD_mem _ hdropnil
        rw [← hcd] at hx
        exact (le_of_lt hx).trans (le_listMax _ _ hh)
      · exact le_listMax _ _ hmem
  rw [hstep]
  exact listMax_reverse v hvnil

/-- C8: any customer whose LTM window ends in at least 3 strictly decreasing
consecutive steps with a positive final value, and whose window maximum
meets the 50,000 materiality floor, is marked at-risk with
`peak = max(v[0 .. len-count-1])` (the first value when the run spans the
whole window) and `decline_pct = (peak - current)/peak*100`, the peak being
positive so the non-degenerate formula applies. -/
theorem at_risk_marking (kund : String) (v : List ℚ)
    (h3 : 3 ≤ consecutive_declines v) (hpos : 0 < lastD v)
    (hmat : 50000 ≤ listMax v) :
    atRiskCheck kund v = some
      { kund := kund
      , current := lastD v
      , peak := listMax (v.take (v.length - consecutive_declines v))
      , decline_pct := (listMax (v.take (v.length - consecutive_declines v)) - lastD v) /
          listMax (v.take (v.length - consecutive_declines v)) * 100
      , consecutive_months := consecutive_declines v
      , trajectory := if 6 ≤ v.length then pySliceLast 6 v else v } ∧
    0 < listMax (v.take (v.length - consecutive_declines v)) := by
  have hvnil : v ≠ [] := by
    intro h
    subst h
    simp [consecutive_declines, cdAux] at h3
  have hcdlt : consecutive_declines v < v.length := by
    have := cdAux_lt_length v.reverse (by simpa using hvnil)
    simpa [consecutive_declines] using this
  have hpeq : listMax (v.take (v.length - consecutive_declines v)) = listMax v :=
    listMax_take_cd v (by omega) hcdlt
  have hppos : 0 < listMax (v.take (v.length - consecutive_declines v)) := by
    rw [hpeq]
    linarith
  refine ⟨?_, hppos⟩
  simp only [atRiskCheck]
  rw [if_neg (not_lt.mpr hmat), if_pos ⟨h3, hpos⟩, if_pos hcdlt, if_pos hppos]

theorem at_risk_marking_witness :
    (3 ≤ consecutive_declines exWindow ∧ 0 < lastD exWindow ∧
      50000 ≤ listMax exWindow ∧ consecutive_declines exWindow = 4) ∧
    atRiskCheck ("Kund") exWindow = some
      { kund := "Kund", current := 55000, peak := 100000, decline_pct := 45
      , consecutive_months := 4, trajectory := exWindow } := by
  refine ⟨⟨by decide, by decide, by decide, by decide⟩, ?_⟩
  rw [(at_risk_marking ("Kund") exWindow (by decide) (by decide) (by decide)).1]
  decide

end HYAB
